import Mathlib

/-!
Verification of the FcStreamWrapper adapter (FcStreamWrapper.cpp) of the
StakeWeightedVoting repository.

The adapter exposes a blocking fc stream through a promise-based interface.
We embed it as a state machine.  Following the concurrency model stated in
the design (single-threaded cooperative scheduling in which a drain worker,
once started, occupies the thread until its queue drains), the atomic steps
of the machine are: the public API calls (write, the batched write, read,
tryRead, shutdownWrite) and the dispatch of one scheduled drain-worker task,
which runs the corresponding processWrites / processReads pass to completion.

Machine-level details of the embedding:
* byte buffers are lists of naturals;
* each enqueued request carries a ghost identifier labelling its completion
  handle (the kj fulfiller); resolutions are logged in order in doneW / doneR;
* the blocking calls received by the wrapped stream on the write side are
  logged in order in ops (StreamOp.write with the full buffer, StreamOp.flush);
* the wrapped stream input is rdata; fc readsome returns between 1 and n of
  the remaining bytes when input remains (a chunk oracle picks how many) and
  raises - modelled as Option.none - at end of input;
* an environment oracle fails lists the indices of the blocking write-side
  calls (writes and flushes) that raise an fc exception, modelling
  UnderlyingIoError; index sop counts those calls.
-/

namespace SWV

/-- Result of resolving a read completion handle: fulfilled with a byte
count, or rejected with the pair (bytes actually read, bytes requested)
carried by the KJ_EXCEPTION in processReads. -/
inductive RRes
  | ok (n : Nat) : RRes
  | err (bytesRead requested : Nat) : RRes
deriving DecidableEq

/-- WriteContext of FcStreamWrapper.cpp: a queued write request.  The
buffer pointer and length are modelled by the byte list itself; the ghost
id labels the completion handle (the fulfiller). -/
structure WriteContext where
  id : Nat
  buffer : List Nat
deriving DecidableEq

/-- ReadContext of FcStreamWrapper.cpp: a queued read request. -/
structure ReadContext where
  id : Nat
  minBytes : Nat
  maxBytes : Nat
  truncateForEof : Bool
deriving DecidableEq

/-- A drain-worker task queued on the cooperative scheduler by fc async. -/
inductive Task
  | procWrites : Task
  | procReads : Task
deriving DecidableEq

/-- A blocking call received by the wrapped fc stream on the write side. -/
inductive StreamOp
  | write (data : List Nat) : StreamOp
  | flush : StreamOp
deriving DecidableEq

/-- The adapter state together with its environment (scheduler task queue,
wrapped stream, oracles) and the ghost logs of completions. -/
structure FcStreamWrapper where
  pendingWrites : List WriteContext
  pendingReads : List ReadContext
  writesProcessing : Bool
  readsProcessing : Bool
  flushWrites : Bool
  eof : Bool
  tasks : List Task
  ops : List StreamOp
  sop : Nat
  fails : List Nat
  rdata : List Nat
  chunks : List Nat
  doneW : List (Nat × List Nat)
  doneR : List (Nat × RRes × List Nat)
  enqW : List (Nat × List Nat)
  enqR : List Nat
  nextWId : Nat
  nextRId : Nat
deriving DecidableEq

/-- Initial adapter state wrapping an already-open stream whose remaining
input is rdata, with the readsome chunk oracle and the write-failure oracle
given. -/
def init (rdata chunks fails : List Nat) : FcStreamWrapper :=
  { pendingWrites := [], pendingReads := [], writesProcessing := false,
    readsProcessing := false, flushWrites := false, eof := false, tasks := [],
    ops := [], sop := 0, fails := fails, rdata := rdata, chunks := chunks,
    doneW := [], doneR := [], enqW := [], enqR := [], nextWId := 0,
    nextRId := 0 }

/-- fc readsome: when input remains it returns between 1 and n of the
remaining bytes (the chunk oracle picks how many); at end of input it
raises, modelled as none.  Mirrors the comment in processReads: it will
only throw if it gets an EOF before the first byte is read. -/
def readsome (rdata chunks : List Nat) (n : Nat) :
    Option (List Nat × List Nat × List Nat) :=
  match rdata with
  | [] => none
  | _ :: _ =>
    let k := min (min n rdata.length) (chunks.headD 0 + 1)
    some (rdata.take k, rdata.drop k, chunks.drop 1)

/-- Outcome of the accumulation loop of processReads for one request:
the bytes written contiguously into the caller's buffer, the remaining
stream input and chunk oracle, and whether the loop was ended by the
readsome EOF exception. -/
structure ReadOutcome where
  acc : List Nat
  rdata : List Nat
  chunks : List Nat
  hitEof : Bool
deriving DecidableEq

/-- The reader lambda of processReads: keep reading until at least minBytes
have accumulated, each sub-read asking the stream for maxBytes - totalBytes.
Each successful readsome returns at least one byte, so the loop needs at
most minB iterations plus a final guard check; the fuel argument (always
called with minB + 1) makes that termination explicit. -/
def readLoop : Nat → Nat → Nat → List Nat → List Nat → List Nat → ReadOutcome
  | 0, _, _, acc, rdata, chunks => ⟨acc, rdata, chunks, false⟩
  | fuel + 1, minB, maxB, acc, rdata, chunks =>
    if acc.length < minB then
      match readsome rdata chunks (maxB - acc.length) with
      | none => ⟨acc, rdata, chunks, true⟩
      | some (bs, rdata2, chunks2) =>
        readLoop fuel minB maxB (acc ++ bs) rdata2 chunks2
    else ⟨acc, rdata, chunks, false⟩

/-- Run the accumulation loop of processReads for one request against the
wrapped stream. -/
def processOneRead (minB maxB : Nat) (rdata chunks : List Nat) : ReadOutcome :=
  readLoop (minB + 1) minB maxB [] rdata chunks

/-- The resolution processReads performs on a request's completion handle:
fulfill with totalBytes when there was no exception or truncateForEof is
set, otherwise reject reporting (totalBytes, minBytes). -/
def resolveRes (trunc : Bool) (minB : Nat) (o : ReadOutcome) : RRes :=
  if o.hitEof = false || trunc then RRes.ok o.acc.length
  else RRes.err o.acc.length minB

/-- Serve the front read request: run the accumulation loop, resolve the
completion handle, record the resolution. -/
def serveOne (s : FcStreamWrapper) (r : ReadContext) : FcStreamWrapper :=
  let o := processOneRead r.minBytes r.maxBytes s.rdata s.chunks
  { s with rdata := o.rdata, chunks := o.chunks,
           doneR := s.doneR ++
             [(r.id, resolveRes r.truncateForEof r.minBytes o, o.acc)] }

/-- The loop of processReads: serve each queued read request in FIFO order;
EOF on one request resolves that request only and processing continues with
the next. -/
def drainR : List ReadContext → FcStreamWrapper → FcStreamWrapper
  | [], s => { s with pendingReads := [] }
  | r :: rest, s => drainR rest (serveOne s r)

/-- processReads: the read drain worker.  The FlagGuard sets
readsProcessing on entry and clears it on every exit path. -/
def processReads (s : FcStreamWrapper) : FcStreamWrapper :=
  let s1 := { s with readsProcessing := true }
  let s2 := drainR s1.pendingReads s1
  { s2 with readsProcessing := false }

/-- The blocking flush of the wrapped stream performed by processWrites
when flushWrites is set; the call can raise (the failure oracle decides),
in which case no flush is recorded. -/
def doFlush (s : FcStreamWrapper) : FcStreamWrapper :=
  if s.sop ∈ s.fails then { s with sop := s.sop + 1 }
  else { s with ops := s.ops ++ [StreamOp.flush], sop := s.sop + 1 }

/-- The loop of processWrites: pop the front write request, perform the
blocking write of the full buffer in one call, fulfill the completion
handle, repeat; when the queue is empty, flush if flushWrites is set.
If a blocking write raises, the exception propagates out of the worker:
the request is neither fulfilled nor popped and the flush is skipped. -/
def drainW : List WriteContext → FcStreamWrapper → FcStreamWrapper
  | [], s =>
    if s.flushWrites then doFlush { s with pendingWrites := [] }
    else { s with pendingWrites := [] }
  | r :: rest, s =>
    if s.sop ∈ s.fails then
      { s with pendingWrites := r :: rest, sop := s.sop + 1 }
    else
      drainW rest { s with pendingWrites := rest,
                           ops := s.ops ++ [StreamOp.write r.buffer],
                           doneW := s.doneW ++ [(r.id, r.buffer)],
                           sop := s.sop + 1 }

/-- processWrites: the write drain worker.  The FlagGuard sets
writesProcessing on entry and clears it on every exit path, including the
path on which a blocking write raised. -/
def processWrites (s : FcStreamWrapper) : FcStreamWrapper :=
  let s1 := { s with writesProcessing := true }
  let s2 := drainW s1.pendingWrites s1
  { s2 with writesProcessing := false }

/-- startWrites: if there is not already a context processing pending
writes, queue a processWrites task on the scheduler. -/
def startWrites (s : FcStreamWrapper) : FcStreamWrapper :=
  if s.writesProcessing then s
  else { s with tasks := s.tasks ++ [Task.procWrites] }

/-- startReads: if there is not already a context processing pending reads,
queue a processReads task on the scheduler. -/
def startReads (s : FcStreamWrapper) : FcStreamWrapper :=
  if s.readsProcessing then s
  else { s with tasks := s.tasks ++ [Task.procReads] }

/-- What a public API call returns to the caller immediately. -/
inductive ApiOut
  | enqueued (id : Nat)
  | batchEnqueued (ids : List Nat)
  | failedImmediately
  | immediateValue (n : Nat)
deriving DecidableEq

/-- write(buffer, size): fails immediately after shutdownWrite, otherwise
enqueues a WriteContext and calls startWrites. -/
def write (s : FcStreamWrapper) (buffer : List Nat) : ApiOut × FcStreamWrapper :=
  if s.flushWrites then (ApiOut.failedImmediately, s)
  else
    (ApiOut.enqueued s.nextWId,
     startWrites { s with
       pendingWrites := s.pendingWrites ++ [⟨s.nextWId, buffer⟩],
       enqW := s.enqW ++ [(s.nextWId, buffer)],
       nextWId := s.nextWId + 1 })

/-- The batched write(pieces): fails immediately after shutdownWrite,
otherwise issues one write per piece and joins the promises. -/
def writeBatch (s : FcStreamWrapper) (pieces : List (List Nat)) :
    ApiOut × FcStreamWrapper :=
  if s.flushWrites then (ApiOut.failedImmediately, s)
  else
    (ApiOut.batchEnqueued (List.range' s.nextWId pieces.length),
     pieces.foldl (fun st p => (write st p).2) s)

/-- read(buffer, minBytes, maxBytes): fails immediately when eof is set,
otherwise enqueues a strict (truncateForEof = false) ReadContext. -/
def read (s : FcStreamWrapper) (minBytes maxBytes : Nat) :
    ApiOut × FcStreamWrapper :=
  if s.eof then (ApiOut.failedImmediately, s)
  else
    (ApiOut.enqueued s.nextRId,
     startReads { s with
       pendingReads := s.pendingReads ++ [⟨s.nextRId, minBytes, maxBytes, false⟩],
       enqR := s.enqR ++ [s.nextRId],
       nextRId := s.nextRId + 1 })

/-- tryRead(buffer, minBytes, maxBytes): resolves immediately with 0 when
eof is set, otherwise enqueues a truncating (truncateForEof = true)
ReadContext. -/
def tryRead (s : FcStreamWrapper) (minBytes maxBytes : Nat) :
    ApiOut × FcStreamWrapper :=
  if s.eof then (ApiOut.immediateValue 0, s)
  else
    (ApiOut.enqueued s.nextRId,
     startReads { s with
       pendingReads := s.pendingReads ++ [⟨s.nextRId, minBytes, maxBytes, true⟩],
       enqR := s.enqR ++ [s.nextRId],
       nextRId := s.nextRId + 1 })

/-- shutdownWrite: set flushWrites and call startWrites. -/
def shutdownWrite (s : FcStreamWrapper) : FcStreamWrapper :=
  startWrites { s with flushWrites := true }

/-- Dispatch the front scheduled task: run the corresponding drain worker
to completion. -/
def dispatchTask (s : FcStreamWrapper) : FcStreamWrapper :=
  match s.tasks with
  | [] => s
  | Task.procWrites :: rest => processWrites { s with tasks := rest }
  | Task.procReads :: rest => processReads { s with tasks := rest }

/-- One atomic step of the system: a public API call or the dispatch of one
scheduled drain-worker task. -/
inductive Step
  | swrite (data : List Nat)
  | swriteBatch (pieces : List (List Nat))
  | sread (minBytes maxBytes : Nat)
  | stryRead (minBytes maxBytes : Nat)
  | sshutdown
  | sdispatch

/-- Apply one step. -/
def exec (s : FcStreamWrapper) : Step → FcStreamWrapper
  | Step.swrite d => (write s d).2
  | Step.swriteBatch ps => (writeBatch s ps).2
  | Step.sread a b => (read s a b).2
  | Step.stryRead a b => (tryRead s a b).2
  | Step.sshutdown => shutdownWrite s
  | Step.sdispatch => dispatchTask s

/-- Run a sequence of steps. -/
def run (s : FcStreamWrapper) (t : List Step) : FcStreamWrapper :=
  t.foldl exec s

/-- Run n dispatch steps. -/
def dispatchN (s : FcStreamWrapper) (n : Nat) : FcStreamWrapper :=
  run s (List.replicate n Step.sdispatch)

/-- The buffers of the blocking write calls received by the wrapped stream,
in order. -/
def writesOf (l : List StreamOp) : List (List Nat) :=
  l.filterMap (fun op => match op with
    | StreamOp.write d => some d
    | StreamOp.flush => none)

def isFlush : StreamOp → Bool
  | StreamOp.flush => true
  | StreamOp.write _ => false

/-- Whether the wrapped stream has received a flush. -/
def hasFlush (l : List StreamOp) : Bool := l.any isFlush

/-- How many flushes the wrapped stream has received. -/
def countFlush (l : List StreamOp) : Nat := (l.filter isFlush).length

/-- The write-side op trace is a block of writes followed by a block of
flushes: no write is ever issued after a flush. -/
def wfOps : List StreamOp → Bool
  | [] => true
  | StreamOp.write _ :: rest => wfOps rest
  | StreamOp.flush :: rest => rest.all isFlush

end SWV

namespace SWV

/-- Invariant of the write side: ghost ids are assigned 0, 1, 2, ... in
enqueue order; the resolved requests followed by the still-queued requests
are exactly the enqueued requests in order; the stream has received exactly
the buffers of the resolved requests, in order and in full; no write op
follows a flush op; a flush can only have happened with an empty queue
after shutdownWrite; and outside a drain pass the activity flag is clear. -/
def WInv (s : FcStreamWrapper) : Prop :=
  s.enqW.map Prod.fst = List.range s.nextWId ∧
  s.doneW ++ s.pendingWrites.map (fun r => (r.id, r.buffer)) = s.enqW ∧
  writesOf s.ops = s.doneW.map Prod.snd ∧
  wfOps s.ops = true ∧
  (hasFlush s.ops = true → s.pendingWrites = [] ∧ s.flushWrites = true) ∧
  s.writesProcessing = false

/-- Invariant of the read side: ghost ids are assigned in enqueue order and
the resolved requests followed by the still-queued requests are exactly the
enqueued requests in order. -/
def RInv (s : FcStreamWrapper) : Prop :=
  s.enqR = List.range s.nextRId ∧
  s.doneR.map (fun x => x.1) ++ s.pendingReads.map (fun r => r.id) = s.enqR ∧
  s.readsProcessing = false

def Inv (s : FcStreamWrapper) : Prop := WInv s ∧ RInv s

/-- Scheduling invariant: whenever a queue is nonempty, a drain-worker task
for that direction is pending on the scheduler. -/
def TInv (s : FcStreamWrapper) : Prop :=
  (s.pendingWrites = [] ∨ Task.procWrites ∈ s.tasks) ∧
  (s.pendingReads = [] ∨ Task.procReads ∈ s.tasks)

/-! Helper lemmas about the op trace. -/

theorem writesOf_append (l1 l2 : List StreamOp) :
    writesOf (l1 ++ l2) = writesOf l1 ++ writesOf l2 := by
  simp [writesOf, List.filterMap_append]

@[simp] theorem writesOf_nil : writesOf [] = [] := rfl

@[simp] theorem writesOf_flush : writesOf [StreamOp.flush] = [] := rfl

@[simp] theorem writesOf_write (d : List Nat) :
    writesOf [StreamOp.write d] = [d] := rfl

theorem hasFlush_append (l1 l2 : List StreamOp) :
    hasFlush (l1 ++ l2) = (hasFlush l1 || hasFlush l2) := by
  simp [hasFlush, List.any_append]

@[simp] theorem hasFlush_flush_one : hasFlush [StreamOp.flush] = true := rfl

@[simp] theorem hasFlush_write_one (d : List Nat) :
    hasFlush [StreamOp.write d] = false := rfl

theorem wfOps_append_flush : ∀ l : List StreamOp,
    wfOps l = true → wfOps (l ++ [StreamOp.flush]) = true := by
  intro l
  induction l with
  | nil => intro _; rfl
  | cons a rest ih =>
    cases a with
    | write d => intro h; simpa [wfOps] using ih (by simpa [wfOps] using h)
    | flush =>
      intro h
      simp only [wfOps] at h
      simp [wfOps, List.all_append, h, isFlush]

theorem wfOps_append_write (d : List Nat) : ∀ l : List StreamOp,
    wfOps l = true → hasFlush l = false → wfOps (l ++ [StreamOp.write d]) = true := by
  intro l
  induction l with
  | nil => intro _ _; rfl
  | cons a rest ih =>
    cases a with
    | write e =>
      intro h1 h2
      simp only [wfOps] at h1
      have h2' : hasFlush rest = false := by
        simpa [hasFlush, isFlush] using h2
      simpa [wfOps] using ih h1 h2'
    | flush => intro _ h2; simp [hasFlush, isFlush] at h2

/-! Projection lemmas: which state fields each internal operation leaves
unchanged. -/

@[simp] theorem doFlush_pendingWrites (s : FcStreamWrapper) :
    (doFlush s).pendingWrites = s.pendingWrites := by
  unfold doFlush; split <;> rfl

@[simp] theorem doFlush_pendingReads (s : FcStreamWrapper) :
    (doFlush s).pendingReads = s.pendingReads := by
  unfold doFlush; split <;> rfl

@[simp] theorem doFlush_doneW (s : FcStreamWrapper) :
    (doFlush s).doneW = s.doneW := by
  unfold doFlush; split <;> rfl

@[simp] theorem doFlush_doneR (s : FcStreamWrapper) :
    (doFlush s).doneR = s.doneR := by
  unfold doFlush; split <;> rfl

@[simp] theorem doFlush_enqW (s : FcStreamWrapper) :
    (doFlush s).enqW = s.enqW := by
  unfold doFlush; split <;> rfl

@[simp] theorem doFlush_enqR (s : FcStreamWrapper) :
    (doFlush s).enqR = s.enqR := by
  unfold doFlush; split <;> rfl

@[simp] theorem doFlush_rdata (s : FcStreamWrapper) :
    (doFlush s).rdata = s.rdata := by
  unfold doFlush; split <;> rfl

@[simp] theorem doFlush_chunks (s : FcStreamWrapper) :
    (doFlush s).chunks = s.chunks := by
  unfold doFlush; split <;> rfl

@[simp] theorem doFlush_flushWrites (s : FcStreamWrapper) :
    (doFlush s).flushWrites = s.flushWrites := by
  unfold doFlush; split <;> rfl

@[simp] theorem doFlush_eof (s : FcStreamWrapper) :
    (doFlush s).eof = s.eof := by
  unfold doFlush; split <;> rfl

@[simp] theorem doFlush_tasks (s : FcStreamWrapper) :
    (doFlush s).tasks = s.tasks := by
  unfold doFlush; split <;> rfl

@[simp] theorem doFlush_nextWId (s : FcStreamWrapper) :
    (doFlush s).nextWId = s.nextWId := by
  unfold doFlush; split <;> rfl

@[simp] theorem doFlush_nextRId (s : FcStreamWrapper) :
    (doFlush s).nextRId = s.nextRId := by
  unfold doFlush; split <;> rfl

@[simp] theorem doFlush_fails (s : FcStreamWrapper) :
    (doFlush s).fails = s.fails := by
  unfold doFlush; split <;> rfl

@[simp] theorem doFlush_writesProcessing (s : FcStreamWrapper) :
    (doFlush s).writesProcessing = s.writesProcessing := by
  unfold doFlush; split <;> rfl

@[simp] theorem doFlush_readsProcessing (s : FcStreamWrapper) :
    (doFlush s).readsProcessing = s.readsProcessing := by
  unfold doFlush; split <;> rfl

@[simp] theorem startWrites_pendingWrites (s : FcStreamWrapper) :
    (startWrites s).pendingWrites = s.pendingWrites := by
  unfold startWrites; split <;> rfl

@[simp] theorem startWrites_pendingReads (s : FcStreamWrapper) :
    (startWrites s).pendingReads = s.pendingReads := by
  unfold startWrites; split <;> rfl

@[simp] theorem startWrites_doneW (s : FcStreamWrapper) :
    (startWrites s).doneW = s.doneW := by
  unfold startWrites; split <;> rfl

@[simp] theorem startWrites_doneR (s : FcStreamWrapper) :
    (startWrites s).doneR = s.doneR := by
  unfold startWrites; split <;> rfl

@[simp] theorem startWrites_enqW (s : FcStreamWrapper) :
    (startWrites s).enqW = s.enqW := by
  unfold startWrites; split <;> rfl

@[simp] theorem startWrites_enqR (s : FcStreamWrapper) :
    (startWrites s).enqR = s.enqR := by
  unfold startWrites; split <;> rfl

@[simp] theorem startWrites_ops (s : FcStreamWrapper) :
    (startWrites s).ops = s.ops := by
  unfold startWrites; split <;> rfl

@[simp] theorem startWrites_flushWrites (s : FcStreamWrapper) :
    (startWrites s).flushWrites = s.flushWrites := by
  unfold startWrites; split <;> rfl

@[simp] theorem startWrites_eof (s : FcStreamWrapper) :
    (startWrites s).eof = s.eof := by
  unfold startWrites; split <;> rfl

@[simp] theorem startWrites_nextWId (s : FcStreamWrapper) :
    (startWrites s).nextWId = s.nextWId := by
  unfold startWrites; split <;> rfl

@[simp] theorem startWrites_nextRId (s : FcStreamWrapper) :
    (startWrites s).nextRId = s.nextRId := by
  unfold startWrites; split <;> rfl

@[simp] theorem startWrites_fails (s : FcStreamWrapper) :
    (startWrites s).fails = s.fails := by
  unfold startWrites; split <;> rfl

@[simp] theorem startWrites_writesProcessing (s : FcStreamWrapper) :
    (startWrites s).writesProcessing = s.writesProcessing := by
  unfold startWrites; split <;> rfl

@[simp] theorem startWrites_readsProcessing (s : FcStreamWrapper) :
    (startWrites s).readsProcessing = s.readsProcessing := by
  unfold startWrites; split <;> rfl

@[simp] theorem startWrites_rdata (s : FcStreamWrapper) :
    (startWrites s).rdata = s.rdata := by
  unfold startWrites; split <;> rfl

@[simp] theorem startWrites_chunks (s : FcStreamWrapper) :
    (startWrites s).chunks = s.chunks := by
  unfold startWrites; split <;> rfl

@[simp] theorem startReads_pendingWrites (s : FcStreamWrapper) :
    (startReads s).pendingWrites = s.pendingWrites := by
  unfold startReads; split <;> rfl

@[simp] theorem startReads_pendingReads (s : FcStreamWrapper) :
    (startReads s).pendingReads = s.pendingReads := by
  unfold startReads; split <;> rfl

@[simp] theorem startReads_doneW (s : FcStreamWrapper) :
    (startReads s).doneW = s.doneW := by
  unfold startReads; split <;> rfl

@[simp] theorem startReads_doneR (s : FcStreamWrapper) :
    (startReads s).doneR = s.doneR := by
  unfold startReads; split <;> rfl

@[simp] theorem startReads_enqW (s : FcStreamWrapper) :
    (startReads s).enqW = s.enqW := by
  unfold startReads; split <;> rfl

@[simp] theorem startReads_enqR (s : FcStreamWrapper) :
    (startReads s).enqR = s.enqR := by
  unfold startReads; split <;> rfl

@[simp] theorem startReads_ops (s : FcStreamWrapper) :
    (startReads s).ops = s.ops := by
  unfold startReads; split <;> rfl

@[simp] theorem startReads_flushWrites (s : FcStreamWrapper) :
    (startReads s).flushWrites = s.flushWrites := by
  unfold startReads; split <;> rfl

@[simp] theorem startReads_eof (s : FcStreamWrapper) :
    (startReads s).eof = s.eof := by
  unfold startReads; split <;> rfl

@[simp] theorem startReads_nextWId (s : FcStreamWrapper) :
    (startReads s).nextWId = s.nextWId := by
  unfold startReads; split <;> rfl

@[simp] theorem startReads_nextRId (s : FcStreamWrapper) :
    (startReads s).nextRId = s.nextRId := by
  unfold startReads; split <;> rfl

@[simp] theorem startReads_fails (s : FcStreamWrapper) :
    (startReads s).fails = s.fails := by
  unfold startReads; split <;> rfl

@[simp] theorem startReads_writesProcessing (s : FcStreamWrapper) :
    (startReads s).writesProcessing = s.writesProcessing := by
  unfold startReads; split <;> rfl

@[simp] theorem startReads_readsProcessing (s : FcStreamWrapper) :
    (startReads s).readsProcessing = s.readsProcessing := by
  unfold startReads; split <;> rfl

@[simp] theorem startReads_rdata (s : FcStreamWrapper) :
    (startReads s).rdata = s.rdata := by
  unfold startReads; split <;> rfl

@[simp] theorem startReads_chunks (s : FcStreamWrapper) :
    (startReads s).chunks = s.chunks := by
  unfold startReads; split <;> rfl

@[simp] theorem serveOne_pendingWrites (s : FcStreamWrapper) (r : ReadContext) :
    (serveOne s r).pendingWrites = s.pendingWrites := rfl

@[simp] theorem serveOne_pendingReads (s : FcStreamWrapper) (r : ReadContext) :
    (serveOne s r).pendingReads = s.pendingReads := rfl

@[simp] theorem serveOne_doneW (s : FcStreamWrapper) (r : ReadContext) :
    (serveOne s r).doneW = s.doneW := rfl

@[simp] theorem serveOne_enqW (s : FcStreamWrapper) (r : ReadContext) :
    (serveOne s r).enqW = s.enqW := rfl

@[simp] theorem serveOne_enqR (s : FcStreamWrapper) (r : ReadContext) :
    (serveOne s r).enqR = s.enqR := rfl

@[simp] theorem serveOne_ops (s : FcStreamWrapper) (r : ReadContext) :
    (serveOne s r).ops = s.ops := rfl

@[simp] theorem serveOne_sop (s : FcStreamWrapper) (r : ReadContext) :
    (serveOne s r).sop = s.sop := rfl

@[simp] theorem serveOne_flushWrites (s : FcStreamWrapper) (r : ReadContext) :
    (serveOne s r).flushWrites = s.flushWrites := rfl

@[simp] theorem serveOne_eof (s : FcStreamWrapper) (r : ReadContext) :
    (serveOne s r).eof = s.eof := rfl

@[simp] theorem serveOne_tasks (s : FcStreamWrapper) (r : ReadContext) :
    (serveOne s r).tasks = s.tasks := rfl

@[simp] theorem serveOne_nextWId (s : FcStreamWrapper) (r : ReadContext) :
    (serveOne s r).nextWId = s.nextWId := rfl

@[simp] theorem serveOne_nextRId (s : FcStreamWrapper) (r : ReadContext) :
    (serveOne s r).nextRId = s.nextRId := rfl

@[simp] theorem serveOne_fails (s : FcStreamWrapper) (r : ReadContext) :
    (serveOne s r).fails = s.fails := rfl

@[simp] theorem serveOne_writesProcessing (s : FcStreamWrapper) (r : ReadContext) :
    (serveOne s r).writesProcessing = s.writesProcessing := rfl

@[simp] theorem serveOne_readsProcessing (s : FcStreamWrapper) (r : ReadContext) :
    (serveOne s r).readsProcessing = s.readsProcessing := rfl

@[simp] theorem serveOne_doneR (s : FcStreamWrapper) (r : ReadContext) :
    (serveOne s r).doneR = s.doneR ++
      [(r.id,
        resolveRes r.truncateForEof r.minBytes
          (processOneRead r.minBytes r.maxBytes s.rdata s.chunks),
        (processOneRead r.minBytes r.maxBytes s.rdata s.chunks).acc)] := rfl

theorem drainW_pendingReads : ∀ (l : List WriteContext) (s : FcStreamWrapper),
    (drainW l s).pendingReads = s.pendingReads := by
  intro l
  induction l with
  | nil =>
    intro s
    unfold drainW
    split <;> simp
  | cons r rest ih =>
    intro s
    unfold drainW
    split
    · rfl
    · simp [ih]

theorem drainW_doneR : ∀ (l : List WriteContext) (s : FcStreamWrapper),
    (drainW l s).doneR = s.doneR := by
  intro l
  induction l with
  | nil =>
    intro s
    unfold drainW
    split <;> simp
  | cons r rest ih =>
    intro s
    unfold drainW
    split
    · rfl
    · simp [ih]

theorem drainW_enqW : ∀ (l : List WriteContext) (s : FcStreamWrapper),
    (drainW l s).enqW = s.enqW := by
  intro l
  induction l with
  | nil =>
    intro s
    unfold drainW
    split <;> simp
  | cons r rest ih =>
    intro s
    unfold drainW
    split
    · rfl
    · simp [ih]

theorem drainW_enqR : ∀ (l : List WriteContext) (s : FcStreamWrapper),
    (drainW l s).enqR = s.enqR := by
  intro l
  induction l with
  | nil =>
    intro s
    unfold drainW
    split <;> simp
  | cons r rest ih =>
    intro s
    unfold drainW
    split
    · rfl
    · simp [ih]

theorem drainW_rdata : ∀ (l : List WriteContext) (s : FcStreamWrapper),
    (drainW l s).rdata = s.rdata := by
  intro l
  induction l with
  | nil =>
    intro s
    unfold drainW
    split <;> simp
  | cons r rest ih =>
    intro s
    unfold drainW
    split
    · rfl
    · simp [ih]

theorem drainW_chunks : ∀ (l : List WriteContext) (s : FcStreamWrapper),
    (drainW l s).chunks = s.chunks := by
  intro l
  induction l with
  | nil =>
    intro s
    unfold drainW
    split <;> simp
  | cons r rest ih =>
    intro s
    unfold drainW
    split
    · rfl
    · simp [ih]

theorem drainW_flushWrites : ∀ (l : List WriteContext) (s : FcStreamWrapper),
    (drainW l s).flushWrites = s.flushWrites := by
  intro l
  induction l with
  | nil =>
    intro s
    unfold drainW
    split <;> simp
  | cons r rest ih =>
    intro s
    unfold drainW
    split
    · rfl
    · simp [ih]

theorem drainW_eof : ∀ (l : List WriteContext) (s : FcStreamWrapper),
    (drainW l s).eof = s.eof := by
  intro l
  induction l with
  | nil =>
    intro s
    unfold drainW
    split <;> simp
  | cons r rest ih =>
    intro s
    unfold drainW
    split
    · rfl
    · simp [ih]

theorem drainW_tasks : ∀ (l : List WriteContext) (s : FcStreamWrapper),
    (drainW l s).tasks = s.tasks := by
  intro l
  induction l with
  | nil =>
    intro s
    unfold drainW
    split <;> simp
  | cons r rest ih =>
    intro s
    unfold drainW
    split
    · rfl
    · simp [ih]

theorem drainW_nextWId : ∀ (l : List WriteContext) (s : FcStreamWrapper),
    (drainW l s).nextWId = s.nextWId := by
  intro l
  induction l with
  | nil =>
    intro s
    unfold drainW
    split <;> simp
  | cons r rest ih =>
    intro s
    unfold drainW
    split
    · rfl
    · simp [ih]

theorem drainW_nextRId : ∀ (l : List WriteContext) (s : FcStreamWrapper),
    (drainW l s).nextRId = s.nextRId := by
  intro l
  induction l with
  | nil =>
    intro s
    unfold drainW
    split <;> simp
  | cons r rest ih =>
    intro s
    unfold drainW
    split
    · rfl
    · simp [ih]

theorem drainW_fails : ∀ (l : List WriteContext) (s : FcStreamWrapper),
    (drainW l s).fails = s.fails := by
  intro l
  induction l with
  | nil =>
    intro s
    unfold drainW
    split <;> simp
  | cons r rest ih =>
    intro s
    unfold drainW
    split
    · rfl
    · simp [ih]

theorem drainW_writesProcessing : ∀ (l : List WriteContext) (s : FcStreamWrapper),
    (drainW l s).writesProcessing = s.writesProcessing := by
  intro l
  induction l with
  | nil =>
    intro s
    unfold drainW
    split <;> simp
  | cons r rest ih =>
    intro s
    unfold drainW
    split
    · rfl
    · simp [ih]

theorem drainW_readsProcessing : ∀ (l : List WriteContext) (s : FcStreamWrapper),
    (drainW l s).readsProcessing = s.readsProcessing := by
  intro l
  induction l with
  | nil =>
    intro s
    unfold drainW
    split <;> simp
  | cons r rest ih =>
    intro s
    unfold drainW
    split
    · rfl
    · simp [ih]

theorem drainR_pendingWrites : ∀ (l : List ReadContext) (s : FcStreamWrapper),
    (drainR l s).pendingWrites = s.pendingWrites := by
  intro l
  induction l with
  | nil =>
    intro s
    rfl
  | cons r rest ih =>
    intro s
    unfold drainR
    simp [ih]

theorem drainR_doneW : ∀ (l : List ReadContext) (s : FcStreamWrapper),
    (drainR l s).doneW = s.doneW := by
  intro l
  induction l with
  | nil =>
    intro s
    rfl
  | cons r rest ih =>
    intro s
    unfold drainR
    simp [ih]

theorem drainR_enqW : ∀ (l : List ReadContext) (s : FcStreamWrapper),
    (drainR l s).enqW = s.enqW := by
  intro l
  induction l with
  | nil =>
    intro s
    rfl
  | cons r rest ih =>
    intro s
    unfold drainR
    simp [ih]

theorem drainR_enqR : ∀ (l : List ReadContext) (s : FcStreamWrapper),
    (drainR l s).enqR = s.enqR := by
  intro l
  induction l with
  | nil =>
    intro s
    rfl
  | cons r rest ih =>
    intro s
    unfold drainR
    simp [ih]

theorem drainR_ops : ∀ (l : List ReadContext) (s : FcStreamWrapper),
    (drainR l s).ops = s.ops := by
  intro l
  induction l with
  | nil =>
    intro s
    rfl
  | cons r rest ih =>
    intro s
    unfold drainR
    simp [ih]

theorem drainR_sop : ∀ (l : List ReadContext) (s : FcStreamWrapper),
    (drainR l s).sop = s.sop := by
  intro l
  induction l with
  | nil =>
    intro s
    rfl
  | cons r rest ih =>
    intro s
    unfold drainR
    simp [ih]

theorem drainR_flushWrites : ∀ (l : List ReadContext) (s : FcStreamWrapper),
    (drainR l s).flushWrites = s.flushWrites := by
  intro l
  induction l with
  | nil =>
    intro s
    rfl
  | cons r rest ih =>
    intro s
    unfold drainR
    simp [ih]

theorem drainR_eof : ∀ (l : List ReadContext) (s : FcStreamWrapper),
    (drainR l s).eof = s.eof := by
  intro l
  induction l with
  | nil =>
    intro s
    rfl
  | cons r rest ih =>
    intro s
    unfold drainR
    simp [ih]

theorem drainR_tasks : ∀ (l : List ReadContext) (s : FcStreamWrapper),
    (drainR l s).tasks = s.tasks := by
  intro l
  induction l with
  | nil =>
    intro s
    rfl
  | cons r rest ih =>
    intro s
    unfold drainR
    simp [ih]

theorem drainR_nextWId : ∀ (l : List ReadContext) (s : FcStreamWrapper),
    (drainR l s).nextWId = s.nextWId := by
  intro l
  induction l with
  | nil =>
    intro s
    rfl
  | cons r rest ih =>
    intro s
    unfold drainR
    simp [ih]

theorem drainR_nextRId : ∀ (l : List ReadContext) (s : FcStreamWrapper),
    (drainR l s).nextRId = s.nextRId := by
  intro l
  induction l with
  | nil =>
    intro s
    rfl
  | cons r rest ih =>
    intro s
    unfold drainR
    simp [ih]

theorem drainR_fails : ∀ (l : List ReadContext) (s : FcStreamWrapper),
    (drainR l s).fails = s.fails := by
  intro l
  induction l with
  | nil =>
    intro s
    rfl
  | cons r rest ih =>
    intro s
    unfold drainR
    simp [ih]

theorem drainR_writesProcessing : ∀ (l : List ReadContext) (s : FcStreamWrapper),
    (drainR l s).writesProcessing = s.writesProcessing := by
  intro l
  induction l with
  | nil =>
    intro s
    rfl
  | cons r rest ih =>
    intro s
    unfold drainR
    simp [ih]

theorem drainR_readsProcessing : ∀ (l : List ReadContext) (s : FcStreamWrapper),
    (drainR l s).readsProcessing = s.readsProcessing := by
  intro l
  induction l with
  | nil =>
    intro s
    rfl
  | cons r rest ih =>
    intro s
    unfold drainR
    simp [ih]

theorem drainR_pendingReads : ∀ (l : List ReadContext) (s : FcStreamWrapper),
    (drainR l s).pendingReads = [] := by
  intro l
  induction l with
  | nil =>
    intro s
    rfl
  | cons r rest ih =>
    intro s
    unfold drainR
    simp [ih]

theorem drainR_doneR_ids : ∀ (l : List ReadContext) (s : FcStreamWrapper),
    (drainR l s).doneR.map (fun x => x.1) =
      s.doneR.map (fun x => x.1) ++ l.map (fun r => r.id) := by
  intro l
  induction l with
  | nil =>
    intro s
    simp [drainR]
  | cons r rest ih =>
    intro s
    unfold drainR
    simp [ih, serveOne]

theorem doFlush_ops_cases (s : FcStreamWrapper) :
    (doFlush s).ops = s.ops ∨ (doFlush s).ops = s.ops ++ [StreamOp.flush] := by
  unfold doFlush
  split
  · exact Or.inl rfl
  · exact Or.inr rfl

theorem drainW_main : ∀ (l : List WriteContext) (s : FcStreamWrapper),
    s.doneW ++ l.map (fun r => (r.id, r.buffer)) = s.enqW →
    writesOf s.ops = s.doneW.map Prod.snd →
    wfOps s.ops = true →
    (hasFlush s.ops = true → l = [] ∧ s.flushWrites = true) →
    ((drainW l s).doneW ++
        (drainW l s).pendingWrites.map (fun r => (r.id, r.buffer)) =
        (drainW l s).enqW ∧
     writesOf (drainW l s).ops = (drainW l s).doneW.map Prod.snd ∧
     wfOps (drainW l s).ops = true ∧
     (hasFlush (drainW l s).ops = true →
        (drainW l s).pendingWrites = [] ∧ (drainW l s).flushWrites = true)) := by
  intro l
  induction l with
  | nil =>
    intro s h1 h2 h3 h4
    simp only [List.map_nil, List.append_nil] at h1
    unfold drainW
    split
    case isTrue hfl =>
      rcases doFlush_ops_cases { s with pendingWrites := [] } with hops | hops
      · refine ⟨by simp [h1], ?_, ?_, ?_⟩
        · rw [hops]; simpa using h2
        · rw [hops]; exact h3
        · intro _; exact ⟨by simp, by simp [hfl]⟩
      · refine ⟨by simp [h1], ?_, ?_, ?_⟩
        · rw [hops]
          show writesOf (s.ops ++ [StreamOp.flush]) = _
          rw [writesOf_append]
          simpa using h2
        · rw [hops]
          exact wfOps_append_flush s.ops h3
        · intro _; exact ⟨by simp, by simp [hfl]⟩
    case isFalse hfl =>
      refine ⟨by simp [h1], h2, h3, ?_⟩
      intro hf
      exact absurd (h4 hf).2 hfl
  | cons r rest ih =>
    intro s h1 h2 h3 h4
    unfold drainW
    split
    case isTrue hmem =>
      refine ⟨by simpa using h1, h2, h3, ?_⟩
      intro hf
      rcases h4 hf with ⟨hnil, _⟩
      cases hnil
    case isFalse hmem =>
      have hflush_false : hasFlush s.ops = false := by
        cases hcase : hasFlush s.ops
        · rfl
        · rcases h4 hcase with ⟨hnil, _⟩; cases hnil
      apply ih
      · show (s.doneW ++ [(r.id, r.buffer)]) ++ _ = s.enqW
        rw [List.append_assoc]
        simpa using h1
      · show writesOf (s.ops ++ [StreamOp.write r.buffer]) = _
        rw [writesOf_append]
        simp [h2]
      · exact wfOps_append_write r.buffer s.ops h3 hflush_false
      · intro hf
        rw [hasFlush_append] at hf
        simp [hflush_false] at hf

theorem drainW_noFail : ∀ (l : List WriteContext) (s : FcStreamWrapper),
    s.fails = [] →
    ((drainW l s).pendingWrites = [] ∧
     (s.flushWrites = true → hasFlush (drainW l s).ops = true)) := by
  intro l
  induction l with
  | nil =>
    intro s hf
    unfold drainW
    split
    case isTrue hfl =>
      constructor
      · simp
      · intro _
        unfold doFlush
        split
        case isTrue hmem => simp [hf] at hmem
        case isFalse hmem => simp [hasFlush_append]
    case isFalse hfl =>
      exact ⟨by simp, fun h => absurd h hfl⟩
  | cons r rest ih =>
    intro s hf
    unfold drainW
    split
    case isTrue hmem => simp [hf] at hmem
    case isFalse hmem =>
      have h := ih { s with pendingWrites := rest,
                            ops := s.ops ++ [StreamOp.write r.buffer],
                            doneW := s.doneW ++ [(r.id, r.buffer)],
                            sop := s.sop + 1 } hf
      exact ⟨h.1, fun hfl => h.2 hfl⟩

theorem drainW_ops_extend : ∀ (l : List WriteContext) (s : FcStreamWrapper),
    ∃ l2, (drainW l s).ops = s.ops ++ l2 := by
  intro l
  induction l with
  | nil =>
    intro s
    unfold drainW
    split
    · rcases doFlush_ops_cases { s with pendingWrites := [] } with h | h
      · exact ⟨[], by simpa using h⟩
      · exact ⟨[StreamOp.flush], by simpa using h⟩
    · exact ⟨[], by simp⟩
  | cons r rest ih =>
    intro s
    unfold drainW
    split
    · exact ⟨[], by simp⟩
    · rcases ih { s with pendingWrites := rest,
                         ops := s.ops ++ [StreamOp.write r.buffer],
                         doneW := s.doneW ++ [(r.id, r.buffer)],
                         sop := s.sop + 1 } with ⟨l2, h⟩
      refine ⟨[StreamOp.write r.buffer] ++ l2, ?_⟩
      rw [h]
      simp

theorem readLoop_success : ∀ (fuel minB maxB : Nat) (acc rdata chunks : List Nat),
    minB ≤ maxB → acc.length ≤ maxB → minB ≤ acc.length + rdata.length →
    minB + 1 ≤ acc.length + fuel →
    ∃ d ch2, d ≤ rdata.length ∧ minB ≤ acc.length + d ∧ acc.length + d ≤ maxB ∧
      readLoop fuel minB maxB acc rdata chunks =
        ⟨acc ++ rdata.take d, rdata.drop d, ch2, false⟩ := by
  intro fuel
  induction fuel with
  | zero =>
    intro minB maxB acc rdata chunks h1 h2 h3 h4
    refine ⟨0, chunks, Nat.zero_le _, by omega, by omega, ?_⟩
    simp [readLoop]
  | succ fuel ih =>
    intro minB maxB acc rdata chunks h1 h2 h3 h4
    by_cases hlt : acc.length < minB
    · cases rdata with
      | nil => simp at h3; omega
      | cons b bs =>
        rw [readLoop, if_pos hlt, readsome]
        simp only []
        set k := min (min (maxB - acc.length) (b :: bs).length) (chunks.headD 0 + 1) with hk
        have hk1 : 1 ≤ k := by
          have hl : 1 ≤ (b :: bs).length := by simp
          simp only [hk]
          omega
        have hklen : k ≤ (b :: bs).length := by
          simp only [hk]
          omega
        have hkn : k ≤ maxB - acc.length := by
          simp only [hk]
          omega
        have hlen2 : (acc ++ (b :: bs).take k).length = acc.length + k := by
          rw [List.length_append, List.length_take, Nat.min_eq_left hklen]
        rcases ih minB maxB (acc ++ (b :: bs).take k) ((b :: bs).drop k) (chunks.drop 1)
            h1 (by rw [hlen2]; omega)
            (by rw [hlen2, List.length_drop]; omega)
            (by rw [hlen2]; omega) with ⟨d2, ch2, hd2, hmin2, hmax2, heq⟩
        refine ⟨k + d2, ch2, ?_, ?_, ?_, ?_⟩
        · rw [List.length_drop] at hd2; omega
        · rw [hlen2] at hmin2; omega
        · rw [hlen2] at hmax2; omega
        · rw [heq]
          congr 1
          · rw [List.append_assoc, ← List.take_add]
          · rw [List.drop_drop, Nat.add_comm]
    · rw [readLoop, if_neg hlt]
      refine ⟨0, chunks, Nat.zero_le _, by omega, by omega, by simp⟩

theorem readLoop_eof : ∀ (fuel minB maxB : Nat) (acc rdata chunks : List Nat),
    minB ≤ maxB → acc.length + rdata.length < minB →
    rdata.length < fuel →
    ∃ ch2, readLoop fuel minB maxB acc rdata chunks = ⟨acc ++ rdata, [], ch2, true⟩ := by
  intro fuel
  induction fuel with
  | zero =>
    intro minB maxB acc rdata chunks h1 h2 h3
    omega
  | succ fuel ih =>
    intro minB maxB acc rdata chunks h1 h2 h3
    have hlt : acc.length < minB := by omega
    cases rdata with
    | nil =>
      rw [readLoop, if_pos hlt, readsome]
      exact ⟨chunks, by simp⟩
    | cons b bs =>
      rw [readLoop, if_pos hlt, readsome]
      simp only []
      set k := min (min (maxB - acc.length) (b :: bs).length) (chunks.headD 0 + 1) with hk
      have hk1 : 1 ≤ k := by
        have hl : 1 ≤ (b :: bs).length := by simp
        simp only [hk]
        omega
      have hklen : k ≤ (b :: bs).length := by
        simp only [hk]
        omega
      have hlen2 : (acc ++ (b :: bs).take k).length = acc.length + k := by
        rw [List.length_append, List.length_take, Nat.min_eq_left hklen]
      rcases ih minB maxB (acc ++ (b :: bs).take k) ((b :: bs).drop k) (chunks.drop 1)
          h1 (by rw [hlen2, List.length_drop]; omega)
          (by rw [List.length_drop]; simp at h3 ⊢; omega) with ⟨ch2, heq⟩
      refine ⟨ch2, ?_⟩
      rw [heq, List.append_assoc, List.take_append_drop]

theorem inv_init (rdata chunks fails : List Nat) : Inv (init rdata chunks fails) := by
  refine ⟨⟨rfl, rfl, rfl, rfl, ?_, rfl⟩, ⟨rfl, rfl, rfl⟩⟩
  intro h
  simp [hasFlush, init] at h

theorem inv_write (s : FcStreamWrapper) (d : List Nat) (h : Inv s) :
    Inv (write s d).2 := by
  obtain ⟨⟨w1, w2, w3, w4, w5, w6⟩, ⟨r1, r2, r3⟩⟩ := h
  unfold write
  split
  · exact ⟨⟨w1, w2, w3, w4, w5, w6⟩, ⟨r1, r2, r3⟩⟩
  case isFalse hfl =>
    refine ⟨⟨?_, ?_, ?_, ?_, ?_, ?_⟩, ⟨?_, ?_, ?_⟩⟩
    · simp only [startWrites_enqW, startWrites_nextWId]
      show (s.enqW ++ [(s.nextWId, d)]).map Prod.fst = List.range (s.nextWId + 1)
      rw [List.map_append, w1, List.range_succ]
      rfl
    · simp only [startWrites_doneW, startWrites_pendingWrites, startWrites_enqW]
      show s.doneW ++
          (s.pendingWrites ++ [WriteContext.mk s.nextWId d]).map
            (fun r => (r.id, r.buffer)) =
        s.enqW ++ [(s.nextWId, d)]
      rw [List.map_append, ← List.append_assoc, w2]
      rfl
    · simp only [startWrites_ops, startWrites_doneW]
      exact w3
    · simp only [startWrites_ops]
      exact w4
    · simp only [startWrites_ops, startWrites_pendingWrites, startWrites_flushWrites]
      intro hf
      exact absurd (w5 hf).2 hfl
    · simp only [startWrites_writesProcessing]
      exact w6
    · simp only [startWrites_enqR, startWrites_nextRId]
      exact r1
    · simp only [startWrites_doneR, startWrites_pendingReads, startWrites_enqR]
      exact r2
    · simp only [startWrites_readsProcessing]
      exact r3

theorem inv_writeFold : ∀ (ps : List (List Nat)) (s : FcStreamWrapper),
    Inv s → Inv (ps.foldl (fun st p => (write st p).2) s) := by
  intro ps
  induction ps with
  | nil => intro s h; exact h
  | cons p rest ih => intro s h; exact ih _ (inv_write s p h)

theorem inv_writeBatch (s : FcStreamWrapper) (ps : List (List Nat)) (h : Inv s) :
    Inv (writeBatch s ps).2 := by
  unfold writeBatch
  split
  · exact h
  · exact inv_writeFold ps s h

theorem inv_read (s : FcStreamWrapper) (a b : Nat) (h : Inv s) :
    Inv (read s a b).2 := by
  obtain ⟨⟨w1, w2, w3, w4, w5, w6⟩, ⟨r1, r2, r3⟩⟩ := h
  unfold read
  split
  · exact ⟨⟨w1, w2, w3, w4, w5, w6⟩, ⟨r1, r2, r3⟩⟩
  case isFalse heof =>
    refine ⟨⟨?_, ?_, ?_, ?_, ?_, ?_⟩, ⟨?_, ?_, ?_⟩⟩
    · simp only [startReads_enqW, startReads_nextWId]
      exact w1
    · simp only [startReads_doneW, startReads_pendingWrites, startReads_enqW]
      exact w2
    · simp only [startReads_ops, startReads_doneW]
      exact w3
    · simp only [startReads_ops]
      exact w4
    · simp only [startReads_ops, startReads_pendingWrites, startReads_flushWrites]
      exact w5
    · simp only [startReads_writesProcessing]
      exact w6
    · simp only [startReads_enqR, startReads_nextRId]
      show s.enqR ++ [s.nextRId] = List.range (s.nextRId + 1)
      rw [r1, List.range_succ]
    · simp only [startReads_doneR, startReads_pendingReads, startReads_enqR]
      show s.doneR.map (fun x => x.1) ++
          (s.pendingReads ++ [ReadContext.mk s.nextRId a b false]).map
            (fun r => r.id) =
        s.enqR ++ [s.nextRId]
      rw [List.map_append, ← List.append_assoc, r2]
      rfl
    · simp only [startReads_readsProcessing]
      exact r3

theorem inv_tryRead (s : FcStreamWrapper) (a b : Nat) (h : Inv s) :
    Inv (tryRead s a b).2 := by
  obtain ⟨⟨w1, w2, w3, w4, w5, w6⟩, ⟨r1, r2, r3⟩⟩ := h
  unfold tryRead
  split
  · exact ⟨⟨w1, w2, w3, w4, w5, w6⟩, ⟨r1, r2, r3⟩⟩
  case isFalse heof =>
    refine ⟨⟨?_, ?_, ?_, ?_, ?_, ?_⟩, ⟨?_, ?_, ?_⟩⟩
    · simp only [startReads_enqW, startReads_nextWId]
      exact w1
    · simp only [startReads_doneW, startReads_pendingWrites, startReads_enqW]
      exact w2
    · simp only [startReads_ops, startReads_doneW]
      exact w3
    · simp only [startReads_ops]
      exact w4
    · simp only [startReads_ops, startReads_pendingWrites, startReads_flushWrites]
      exact w5
    · simp only [startReads_writesProcessing]
      exact w6
    · simp only [startReads_enqR, startReads_nextRId]
      show s.enqR ++ [s.nextRId] = List.range (s.nextRId + 1)
      rw [r1, List.range_succ]
    · simp only [startReads_doneR, startReads_pendingReads, startReads_enqR]
      show s.doneR.map (fun x => x.1) ++
          (s.pendingReads ++ [ReadContext.mk s.nextRId a b true]).map
            (fun r => r.id) =
        s.enqR ++ [s.nextRId]
      rw [List.map_append, ← List.append_assoc, r2]
      rfl
    · simp only [startReads_readsProcessing]
      exact r3

theorem inv_shutdown (s : FcStreamWrapper) (h : Inv s) : Inv (shutdownWrite s) := by
  obtain ⟨⟨w1, w2, w3, w4, w5, w6⟩, ⟨r1, r2, r3⟩⟩ := h
  unfold shutdownWrite
  refine ⟨⟨?_, ?_, ?_, ?_, ?_, ?_⟩, ⟨?_, ?_, ?_⟩⟩
  · simp only [startWrites_enqW, startWrites_nextWId]
    exact w1
  · simp only [startWrites_doneW, startWrites_pendingWrites, startWrites_enqW]
    exact w2
  · simp only [startWrites_ops, startWrites_doneW]
    exact w3
  · simp only [startWrites_ops]
    exact w4
  · simp only [startWrites_ops, startWrites_pendingWrites, startWrites_flushWrites]
    intro hf
    exact ⟨(w5 hf).1, by trivial⟩
  · simp only [startWrites_writesProcessing]
    exact w6
  · simp only [startWrites_enqR, startWrites_nextRId]
    exact r1
  · simp only [startWrites_doneR, startWrites_pendingReads, startWrites_enqR]
    exact r2
  · simp only [startWrites_readsProcessing]
    exact r3

theorem inv_processWrites (s : FcStreamWrapper) (h : Inv s) :
    Inv (processWrites s) := by
  obtain ⟨⟨w1, w2, w3, w4, w5, w6⟩, ⟨r1, r2, r3⟩⟩ := h
  show Inv { drainW s.pendingWrites { s with writesProcessing := true } with
             writesProcessing := false }
  have hm := drainW_main s.pendingWrites { s with writesProcessing := true }
    w2 w3 w4 w5
  refine ⟨⟨?_, ?_, ?_, ?_, ?_, rfl⟩, ⟨?_, ?_, ?_⟩⟩
  · simp only [drainW_enqW, drainW_nextWId]
    exact w1
  · exact hm.1
  · exact hm.2.1
  · exact hm.2.2.1
  · exact hm.2.2.2
  · simp only [drainW_enqR, drainW_nextRId]
    exact r1
  · simp only [drainW_doneR, drainW_pendingReads, drainW_enqR]
    exact r2
  · simp only [drainW_readsProcessing]
    exact r3

theorem inv_processReads (s : FcStreamWrapper) (h : Inv s) :
    Inv (processReads s) := by
  obtain ⟨⟨w1, w2, w3, w4, w5, w6⟩, ⟨r1, r2, r3⟩⟩ := h
  show Inv { drainR s.pendingReads { s with readsProcessing := true } with
             readsProcessing := false }
  refine ⟨⟨?_, ?_, ?_, ?_, ?_, ?_⟩, ⟨?_, ?_, rfl⟩⟩
  · simp only [drainR_enqW, drainR_nextWId]
    exact w1
  · simp only [drainR_doneW, drainR_pendingWrites, drainR_enqW]
    exact w2
  · simp only [drainR_ops, drainR_doneW]
    exact w3
  · simp only [drainR_ops]
    exact w4
  · simp only [drainR_ops, drainR_pendingWrites, drainR_flushWrites]
    exact w5
  · simp only [drainR_writesProcessing]
    exact w6
  · simp only [drainR_enqR, drainR_nextRId]
    exact r1
  · simp only [drainR_doneR_ids, drainR_pendingReads, drainR_enqR]
    simpa using r2

theorem inv_dispatch (s : FcStreamWrapper) (h : Inv s) : Inv (dispatchTask s) := by
  cases htasks : s.tasks with
  | nil =>
    unfold dispatchTask
    rw [htasks]
    exact h
  | cons t rest =>
    cases t with
    | procWrites =>
      unfold dispatchTask
      rw [htasks]
      exact inv_processWrites { s with tasks := rest } h
    | procReads =>
      unfold dispatchTask
      rw [htasks]
      exact inv_processReads { s with tasks := rest } h

theorem inv_step (s : FcStreamWrapper) (st : Step) (h : Inv s) : Inv (exec s st) := by
  cases st with
  | swrite d => exact inv_write s d h
  | swriteBatch ps => exact inv_writeBatch s ps h
  | sread a b => exact inv_read s a b h
  | stryRead a b => exact inv_tryRead s a b h
  | sshutdown => exact inv_shutdown s h
  | sdispatch => exact inv_dispatch s h

theorem inv_run : ∀ (t : List Step) (s : FcStreamWrapper), Inv s → Inv (run s t) := by
  intro t
  induction t with
  | nil => intro s h; exact h
  | cons st rest ih => intro s h; exact ih _ (inv_step s st h)

theorem processWrites_def (s : FcStreamWrapper) :
    processWrites s =
      { drainW s.pendingWrites { s with writesProcessing := true } with
        writesProcessing := false } := rfl

theorem processReads_def (s : FcStreamWrapper) :
    processReads s =
      { drainR s.pendingReads { s with readsProcessing := true } with
        readsProcessing := false } := rfl

theorem startWrites_tasks_eq (s : FcStreamWrapper) (h : s.writesProcessing = false) :
    (startWrites s).tasks = s.tasks ++ [Task.procWrites] := by
  unfold startWrites
  rw [if_neg (by simp [h])]

theorem startReads_tasks_eq (s : FcStreamWrapper) (h : s.readsProcessing = false) :
    (startReads s).tasks = s.tasks ++ [Task.procReads] := by
  unfold startReads
  rw [if_neg (by simp [h])]

theorem dispatch_tasks (s : FcStreamWrapper) :
    (dispatchTask s).tasks = s.tasks.tail := by
  cases htasks : s.tasks with
  | nil =>
    unfold dispatchTask
    rw [htasks]
    exact htasks
  | cons t rest =>
    cases t with
    | procWrites =>
      unfold dispatchTask
      rw [htasks]
      show (processWrites { s with tasks := rest }).tasks = (Task.procWrites :: rest).tail
      rw [processWrites_def]
      simp [drainW_tasks]
    | procReads =>
      unfold dispatchTask
      rw [htasks]
      show (processReads { s with tasks := rest }).tasks = (Task.procReads :: rest).tail
      rw [processReads_def]
      simp [drainR_tasks]

theorem dispatch_fails (s : FcStreamWrapper) :
    (dispatchTask s).fails = s.fails := by
  cases htasks : s.tasks with
  | nil =>
    unfold dispatchTask
    rw [htasks]
  | cons t rest =>
    cases t with
    | procWrites =>
      unfold dispatchTask
      rw [htasks]
      show (processWrites { s with tasks := rest }).fails = s.fails
      rw [processWrites_def]
      simp [drainW_fails]
    | procReads =>
      unfold dispatchTask
      rw [htasks]
      show (processReads { s with tasks := rest }).fails = s.fails
      rw [processReads_def]
      simp [drainR_fails]

theorem dispatch_flushWrites (s : FcStreamWrapper) :
    (dispatchTask s).flushWrites = s.flushWrites := by
  cases htasks : s.tasks with
  | nil =>
    unfold dispatchTask
    rw [htasks]
  | cons t rest =>
    cases t with
    | procWrites =>
      unfold dispatchTask
      rw [htasks]
      show (processWrites { s with tasks := rest }).flushWrites = s.flushWrites
      rw [processWrites_def]
      simp [drainW_flushWrites]
    | procReads =>
      unfold dispatchTask
      rw [htasks]
      show (processReads { s with tasks := rest }).flushWrites = s.flushWrites
      rw [processReads_def]
      simp [drainR_flushWrites]

theorem dispatch_enqW (s : FcStreamWrapper) :
    (dispatchTask s).enqW = s.enqW := by
  cases htasks : s.tasks with
  | nil =>
    unfold dispatchTask
    rw [htasks]
  | cons t rest =>
    cases t with
    | procWrites =>
      unfold dispatchTask
      rw [htasks]
      show (processWrites { s with tasks := rest }).enqW = s.enqW
      rw [processWrites_def]
      simp [drainW_enqW]
    | procReads =>
      unfold dispatchTask
      rw [htasks]
      show (processReads { s with tasks := rest }).enqW = s.enqW
      rw [processReads_def]
      simp [drainR_enqW]

theorem dispatch_ops_extend (s : FcStreamWrapper) :
    ∃ l2, (dispatchTask s).ops = s.ops ++ l2 := by
  cases htasks : s.tasks with
  | nil =>
    refine ⟨[], ?_⟩
    unfold dispatchTask
    rw [htasks]
    simp
  | cons t rest =>
    cases t with
    | procWrites =>
      unfold dispatchTask
      rw [htasks]
      show ∃ l2, (processWrites { s with tasks := rest }).ops = s.ops ++ l2
      rw [processWrites_def]
      rcases drainW_ops_extend ({ s with tasks := rest }).pendingWrites
        { { s with tasks := rest } with writesProcessing := true } with ⟨l2, h⟩
      exact ⟨l2, h⟩
    | procReads =>
      unfold dispatchTask
      rw [htasks]
      show ∃ l2, (processReads { s with tasks := rest }).ops = s.ops ++ l2
      rw [processReads_def]
      refine ⟨[], ?_⟩
      simp [drainR_ops]

theorem tinv_init (rdata chunks fails : List Nat) : TInv (init rdata chunks fails) :=
  ⟨Or.inl rfl, Or.inl rfl⟩

theorem tinv_write (s : FcStreamWrapper) (d : List Nat) (hi : Inv s) (h : TInv s) :
    TInv (write s d).2 := by
  unfold write
  split
  · exact h
  case isFalse hfl =>
    have hw : s.writesProcessing = false := hi.1.2.2.2.2.2
    dsimp only
    constructor
    · right
      rw [startWrites_tasks_eq _ (by exact hw)]
      simp
    · rcases h.2 with hnil | hmem
      · left
        simp [hnil]
      · right
        rw [startWrites_tasks_eq _ (by exact hw)]
        show Task.procReads ∈ s.tasks ++ [Task.procWrites]
        exact List.mem_append_left _ hmem

theorem tinv_writeFold : ∀ (ps : List (List Nat)) (s : FcStreamWrapper),
    Inv s → TInv s → TInv (ps.foldl (fun st p => (write st p).2) s) := by
  intro ps
  induction ps with
  | nil => intro s _ h; exact h
  | cons p rest ih =>
    intro s hi h
    exact ih _ (inv_write s p hi) (tinv_write s p hi h)

theorem tinv_writeBatch (s : FcStreamWrapper) (ps : List (List Nat))
    (hi : Inv s) (h : TInv s) : TInv (writeBatch s ps).2 := by
  unfold writeBatch
  split
  · exact h
  · exact tinv_writeFold ps s hi h

theorem tinv_read (s : FcStreamWrapper) (a b : Nat) (hi : Inv s) (h : TInv s) :
    TInv (read s a b).2 := by
  unfold read
  split
  · exact h
  case isFalse heof =>
    have hr : s.readsProcessing = false := hi.2.2.2
    dsimp only
    constructor
    · rcases h.1 with hnil | hmem
      · left
        simp [hnil]
      · right
        rw [startReads_tasks_eq _ (by exact hr)]
        show Task.procWrites ∈ s.tasks ++ [Task.procReads]
        exact List.mem_append_left _ hmem
    · right
      rw [startReads_tasks_eq _ (by exact hr)]
      simp

theorem tinv_tryRead (s : FcStreamWrapper) (a b : Nat) (hi : Inv s) (h : TInv s) :
    TInv (tryRead s a b).2 := by
  unfold tryRead
  split
  · exact h
  case isFalse heof =>
    have hr : s.readsProcessing = false := hi.2.2.2
    dsimp only
    constructor
    · rcases h.1 with hnil | hmem
      · left
        simp [hnil]
      · right
        rw [startReads_tasks_eq _ (by exact hr)]
        show Task.procWrites ∈ s.tasks ++ [Task.procReads]
        exact List.mem_append_left _ hmem
    · right
      rw [startReads_tasks_eq _ (by exact hr)]
      simp

theorem tinv_shutdown (s : FcStreamWrapper) (hi : Inv s) (h : TInv s) :
    TInv (shutdownWrite s) := by
  unfold shutdownWrite
  have hw : s.writesProcessing = false := hi.1.2.2.2.2.2
  constructor
  · right
    rw [startWrites_tasks_eq _ (by exact hw)]
    simp
  · rcases h.2 with hnil | hmem
    · left
      simp [hnil]
    · right
      rw [startWrites_tasks_eq _ (by exact hw)]
      show Task.procReads ∈ s.tasks ++ [Task.procWrites]
      exact List.mem_append_left _ hmem

theorem tinv_dispatch (s : FcStreamWrapper) (hf : s.fails = []) (h : TInv s) :
    TInv (dispatchTask s) := by
  cases htasks : s.tasks with
  | nil =>
    unfold dispatchTask
    rw [htasks]
    exact h
  | cons t rest =>
    cases t with
    | procWrites =>
      unfold dispatchTask
      rw [htasks]
      show TInv (processWrites { s with tasks := rest })
      rw [processWrites_def]
      constructor
      · left
        show (drainW s.pendingWrites _).pendingWrites = []
        exact (drainW_noFail _ _ (by exact hf)).1
      · rcases h.2 with hnil | hmem
        · left
          show (drainW s.pendingWrites _).pendingReads = _
          rw [drainW_pendingReads]
          exact hnil
        · right
          show Task.procReads ∈ (drainW s.pendingWrites _).tasks
          rw [drainW_tasks]
          show Task.procReads ∈ rest
          rw [htasks] at hmem
          rcases List.mem_cons.mp hmem with heq | hmem2
          · exact absurd heq (by simp)
          · exact hmem2
    | procReads =>
      unfold dispatchTask
      rw [htasks]
      show TInv (processReads { s with tasks := rest })
      rw [processReads_def]
      constructor
      · rcases h.1 with hnil | hmem
        · left
          show (drainR s.pendingReads _).pendingWrites = _
          rw [drainR_pendingWrites]
          exact hnil
        · right
          show Task.procWrites ∈ (drainR s.pendingReads _).tasks
          rw [drainR_tasks]
          show Task.procWrites ∈ rest
          rw [htasks] at hmem
          rcases List.mem_cons.mp hmem with heq | hmem2
          · exact absurd heq (by simp)
          · exact hmem2
      · left
        show (drainR s.pendingReads _).pendingReads = []
        exact drainR_pendingReads _ _

theorem write_fails (s : FcStreamWrapper) (d : List Nat) :
    ((write s d).2).fails = s.fails := by
  unfold write
  split
  · rfl
  · simp [startWrites_fails]

theorem writeFold_fails : ∀ (ps : List (List Nat)) (s : FcStreamWrapper),
    (ps.foldl (fun st p => (write st p).2) s).fails = s.fails := by
  intro ps
  induction ps with
  | nil => intro s; rfl
  | cons p rest ih =>
    intro s
    show (rest.foldl _ (write s p).2).fails = s.fails
    rw [ih, write_fails]

theorem exec_fails (s : FcStreamWrapper) (st : Step) :
    (exec s st).fails = s.fails := by
  cases st with
  | swrite d => exact write_fails s d
  | swriteBatch ps =>
    show ((writeBatch s ps).2).fails = s.fails
    unfold writeBatch
    split
    · rfl
    · exact writeFold_fails ps s
  | sread a b =>
    show ((read s a b).2).fails = s.fails
    unfold read
    split
    · rfl
    · simp [startReads_fails]
  | stryRead a b =>
    show ((tryRead s a b).2).fails = s.fails
    unfold tryRead
    split
    · rfl
    · simp [startReads_fails]
  | sshutdown =>
    show (shutdownWrite s).fails = s.fails
    unfold shutdownWrite
    simp [startWrites_fails]
  | sdispatch => exact dispatch_fails s

theorem run_fails : ∀ (t : List Step) (s : FcStreamWrapper),
    (run s t).fails = s.fails := by
  intro t
  induction t with
  | nil => intro s; rfl
  | cons st rest ih =>
    intro s
    show (run (exec s st) rest).fails = s.fails
    rw [ih, exec_fails]

theorem tinv_step (s : FcStreamWrapper) (st : Step) (hf : s.fails = [])
    (hi : Inv s) (h : TInv s) : TInv (exec s st) := by
  cases st with
  | swrite d => exact tinv_write s d hi h
  | swriteBatch ps => exact tinv_writeBatch s ps hi h
  | sread a b => exact tinv_read s a b hi h
  | stryRead a b => exact tinv_tryRead s a b hi h
  | sshutdown => exact tinv_shutdown s hi h
  | sdispatch => exact tinv_dispatch s hf h

theorem tinv_run : ∀ (t : List Step) (s : FcStreamWrapper), s.fails = [] →
    Inv s → TInv s → TInv (run s t) := by
  intro t
  induction t with
  | nil => intro s _ _ h; exact h
  | cons st rest ih =>
    intro s hf hi h
    exact ih _ (by rw [exec_fails]; exact hf) (inv_step s st hi) (tinv_step s st hf hi h)

theorem dispatchN_succ (s : FcStreamWrapper) (n : Nat) :
    dispatchN s (n + 1) = dispatchN (dispatchTask s) n := by
  unfold dispatchN run
  rw [List.replicate_succ]
  rfl

theorem dispatchN_tasks : ∀ (n : Nat) (s : FcStreamWrapper),
    s.tasks.length = n → (dispatchN s n).tasks = [] := by
  intro n
  induction n with
  | zero =>
    intro s h
    exact List.length_eq_zero.mp h
  | succ n ih =>
    intro s h
    rw [dispatchN_succ]
    apply ih
    rw [dispatch_tasks, List.length_tail]
    omega

theorem dispatchN_enqW : ∀ (n : Nat) (s : FcStreamWrapper),
    (dispatchN s n).enqW = s.enqW := by
  intro n
  induction n with
  | zero => intro s; rfl
  | succ n ih =>
    intro s
    rw [dispatchN_succ, ih, dispatch_enqW]

theorem dispatchN_fails : ∀ (n : Nat) (s : FcStreamWrapper),
    (dispatchN s n).fails = s.fails := by
  intro n
  induction n with
  | zero => intro s; rfl
  | succ n ih =>
    intro s
    rw [dispatchN_succ, ih, dispatch_fails]

theorem hasFlush_dispatchN_mono : ∀ (n : Nat) (s : FcStreamWrapper),
    hasFlush s.ops = true → hasFlush (dispatchN s n).ops = true := by
  intro n
  induction n with
  | zero => intro s h; exact h
  | succ n ih =>
    intro s h
    rw [dispatchN_succ]
    apply ih
    rcases dispatch_ops_extend s with ⟨l2, he⟩
    rw [he, hasFlush_append, h]
    rfl

theorem flush_eventually : ∀ (n : Nat) (s : FcStreamWrapper), s.tasks.length = n →
    s.fails = [] → s.flushWrites = true → Task.procWrites ∈ s.tasks →
    hasFlush (dispatchN s n).ops = true := by
  intro n
  induction n with
  | zero =>
    intro s h hf hfw hmem
    rw [List.length_eq_zero.mp h] at hmem
    cases hmem
  | succ n ih =>
    intro s h hf hfw hmem
    rw [dispatchN_succ]
    cases htasks : s.tasks with
    | nil =>
      rw [htasks] at h
      cases h
    | cons t rest =>
      cases t with
      | procWrites =>
        apply hasFlush_dispatchN_mono
        unfold dispatchTask
        rw [htasks]
        show hasFlush (processWrites { s with tasks := rest }).ops = true
        rw [processWrites_def]
        exact (drainW_noFail _ _ (by exact hf)).2 (by exact hfw)
      | procReads =>
        apply ih
        · rw [dispatch_tasks, htasks]
          rw [htasks] at h
          simp at h ⊢
          omega
        · rw [dispatch_fails]
          exact hf
        · rw [dispatch_flushWrites]
          exact hfw
        · rw [dispatch_tasks, htasks]
          rw [htasks] at hmem
          rcases List.mem_cons.mp hmem with heq | hmem2
          · exact absurd heq (by simp)
          · simpa using hmem2

theorem run_append (s : FcStreamWrapper) (t1 t2 : List Step) :
    run s (t1 ++ t2) = run (run s t1) t2 :=
  List.foldl_append ..

theorem prefix_of_range {l1 l2 : List Nat} {n : Nat} (h : l1 ++ l2 = List.range n) :
    l1 = List.range l1.length := by
  have hlen : l1.length ≤ n := by
    have hl := congrArg List.length h
    simp [List.length_append] at hl
    omega
  calc l1 = (l1 ++ l2).take l1.length := (List.take_left l1 l2).symm
  _ = (List.range n).take l1.length := by rw [h]
  _ = List.range (min l1.length n) := List.take_range ..
  _ = List.range l1.length := by rw [Nat.min_eq_left hlen]

theorem shutdown_flushWrites (s : FcStreamWrapper) :
    (shutdownWrite s).flushWrites = true := by
  unfold shutdownWrite
  simp [startWrites_flushWrites]

theorem shutdown_task_mem (s : FcStreamWrapper) (h : s.writesProcessing = false) :
    Task.procWrites ∈ (shutdownWrite s).tasks := by
  unfold shutdownWrite
  rw [startWrites_tasks_eq _ (by exact h)]
  simp

/-- C4: every call to write (single-buffer or batched fragments form) made
after shutdownWrite has been called returns an already-failed future with a
FAILED error, no WriteContext is enqueued, and the state is untouched, so
no bytes from that call are ever passed to the underlying stream. -/
theorem C4_write_after_shutdown (s : FcStreamWrapper) (d : List Nat)
    (ps : List (List Nat)) (h : s.flushWrites = true) :
    write s d = (ApiOut.failedImmediately, s) ∧
    writeBatch s ps = (ApiOut.failedImmediately, s) := by
  unfold write writeBatch
  rw [if_pos h, if_pos h]
  exact ⟨rfl, rfl⟩

theorem C4_write_after_shutdown_witness :
    (shutdownWrite (init [] [] [])).flushWrites = true ∧
    (write (shutdownWrite (init [] [] [])) [3] =
        (ApiOut.failedImmediately, shutdownWrite (init [] [] [])) ∧
     writeBatch (shutdownWrite (init [] [] [])) [[4], [5]] =
        (ApiOut.failedImmediately, shutdownWrite (init [] [] []))) :=
  ⟨by decide, C4_write_after_shutdown _ [3] [[4], [5]] (by decide)⟩

/-- C5: while the eof flag is set, read returns an immediately-failed
future and tryRead returns an immediately-successful future with value 0;
in both cases the state is untouched, so no ReadContext is enqueued and
the underlying stream is not touched. -/
theorem C5_read_after_eof (s : FcStreamWrapper) (minB maxB : Nat) (h : s.eof = true) :
    read s minB maxB = (ApiOut.failedImmediately, s) ∧
    tryRead s minB maxB = (ApiOut.immediateValue 0, s) := by
  unfold read tryRead
  rw [if_pos h, if_pos h]
  exact ⟨rfl, rfl⟩

theorem C5_read_after_eof_witness :
    ({ init [] [] [] with eof := true } : FcStreamWrapper).eof = true ∧
    (read { init [] [] [] with eof := true } 1 2 =
        (ApiOut.failedImmediately, { init [] [] [] with eof := true }) ∧
     tryRead { init [] [] [] with eof := true } 1 2 =
        (ApiOut.immediateValue 0, { init [] [] [] with eof := true })) :=
  ⟨rfl, C5_read_after_eof _ 1 2 rfl⟩

/-- C10: for a read request with minBytes = 0 the accumulation loop body of
processReads never executes: no readsome call is made (the stream input and
the chunk oracle are untouched), no byte is accumulated into the buffer,
and the completion handle is fulfilled with 0. -/
theorem C10_min_zero_no_stream_touch (maxB : Nat) (rd ch : List Nat) (trunc : Bool) :
    processOneRead 0 maxB rd ch = ⟨[], rd, ch, false⟩ ∧
    resolveRes trunc 0 (processOneRead 0 maxB rd ch) = RRes.ok 0 := by
  have hp : processOneRead 0 maxB rd ch = ⟨[], rd, ch, false⟩ := by
    unfold processOneRead
    rw [readLoop]
    simp
  refine ⟨hp, ?_⟩
  rw [hp]
  simp [resolveRes]

/-- C2: for a read request with minBytes ≤ maxBytes, processed while the
underlying stream can still supply at least minBytes bytes, the
accumulation loop of processReads terminates without hitting EOF, the
completion handle is fulfilled with a value v with minBytes ≤ v ≤ maxBytes
(for both the strict and the truncating mode), and the bytes accumulated
contiguously into the caller's buffer are exactly the next v bytes of the
stream content. -/
theorem C2_read_bounds_and_content (minB maxB : Nat) (rd ch : List Nat)
    (trunc : Bool) (h1 : minB ≤ maxB) (h2 : minB ≤ rd.length) :
    (processOneRead minB maxB rd ch).hitEof = false ∧
    minB ≤ (processOneRead minB maxB rd ch).acc.length ∧
    (processOneRead minB maxB rd ch).acc.length ≤ maxB ∧
    (processOneRead minB maxB rd ch).acc =
      rd.take (processOneRead minB maxB rd ch).acc.length ∧
    (processOneRead minB maxB rd ch).rdata =
      rd.drop (processOneRead minB maxB rd ch).acc.length ∧
    resolveRes trunc minB (processOneRead minB maxB rd ch) =
      RRes.ok (processOneRead minB maxB rd ch).acc.length := by
  rcases readLoop_success (minB + 1) minB maxB [] rd ch h1 (by simp)
      (by simpa using h2) (by simp) with ⟨d, ch2, hd, hmin, hmax, heq⟩
  simp only [List.length_nil, Nat.zero_add] at hmin hmax
  have hp : processOneRead minB maxB rd ch =
      ⟨rd.take d, rd.drop d, ch2, false⟩ := by
    unfold processOneRead
    rw [heq]
    simp
  have hlen : (rd.take d).length = d := by
    rw [List.length_take, Nat.min_eq_left hd]
  rw [hp]
  refine ⟨rfl, ?_, ?_, ?_, ?_, ?_⟩
  · show minB ≤ (rd.take d).length
    rw [hlen]
    exact hmin
  · show (rd.take d).length ≤ maxB
    rw [hlen]
    exact hmax
  · show rd.take d = rd.take (rd.take d).length
    rw [hlen]
  · show rd.drop d = rd.drop (rd.take d).length
    rw [hlen]
  · simp [resolveRes]

theorem C2_read_bounds_and_content_witness :
    (2 ≤ 3 ∧ 2 ≤ [7, 8, 9, 4].length) ∧
    ((processOneRead 2 3 [7, 8, 9, 4] [0, 0, 0]).hitEof = false ∧
     2 ≤ (processOneRead 2 3 [7, 8, 9, 4] [0, 0, 0]).acc.length ∧
     (processOneRead 2 3 [7, 8, 9, 4] [0, 0, 0]).acc.length ≤ 3 ∧
     (processOneRead 2 3 [7, 8, 9, 4] [0, 0, 0]).acc =
       [7, 8, 9, 4].take (processOneRead 2 3 [7, 8, 9, 4] [0, 0, 0]).acc.length ∧
     (processOneRead 2 3 [7, 8, 9, 4] [0, 0, 0]).rdata =
       [7, 8, 9, 4].drop (processOneRead 2 3 [7, 8, 9, 4] [0, 0, 0]).acc.length ∧
     resolveRes false 2 (processOneRead 2 3 [7, 8, 9, 4] [0, 0, 0]) =
       RRes.ok (processOneRead 2 3 [7, 8, 9, 4] [0, 0, 0]).acc.length) :=
  ⟨⟨by decide, by decide⟩,
   C2_read_bounds_and_content 2 3 [7, 8, 9, 4] [0, 0, 0] false (by decide) (by decide)⟩

/-- C6: for a read request whose accumulation hits end-of-input before
reaching minBytes, having accumulated k < minBytes bytes (all remaining
stream bytes): if truncateForEof is true the completion handle is fulfilled
with k, otherwise it is rejected with a FAILED error reporting k and the
requested minBytes; and the drain loop of processReads then continues with
the next queued request (drainR pops the served request and recurses). -/
theorem C6_premature_eof (minB maxB : Nat) (rd ch : List Nat) (trunc : Bool)
    (h1 : minB ≤ maxB) (h2 : rd.length < minB) :
    (processOneRead minB maxB rd ch).hitEof = true ∧
    (processOneRead minB maxB rd ch).acc = rd ∧
    resolveRes trunc minB (processOneRead minB maxB rd ch) =
      (if trunc then RRes.ok rd.length else RRes.err rd.length minB) ∧
    (∀ (r : ReadContext) (rest : List ReadContext) (s : FcStreamWrapper),
      drainR (r :: rest) s = drainR rest (serveOne s r)) := by
  rcases readLoop_eof (minB + 1) minB maxB [] rd ch h1 (by simpa using h2)
      (by omega) with ⟨ch2, heq⟩
  have hp : processOneRead minB maxB rd ch = ⟨rd, [], ch2, true⟩ := by
    unfold processOneRead
    rw [heq]
    simp
  rw [hp]
  refine ⟨rfl, rfl, ?_, fun r rest s => rfl⟩
  cases trunc <;> simp [resolveRes]

theorem C6_premature_eof_witness :
    (3 ≤ 3 ∧ [1, 2].length < 3) ∧
    ((processOneRead 3 3 [1, 2] []).hitEof = true ∧
     (processOneRead 3 3 [1, 2] []).acc = [1, 2] ∧
     resolveRes false 3 (processOneRead 3 3 [1, 2] []) =
       (if false then RRes.ok [1, 2].length else RRes.err [1, 2].length 3) ∧
     (∀ (r : ReadContext) (rest : List ReadContext) (s : FcStreamWrapper),
       drainR (r :: rest) s = drainR rest (serveOne s r))) :=
  ⟨⟨by decide, by decide⟩,
   C6_premature_eof 3 3 [1, 2] [] false (by decide) (by decide)⟩

/-- C3: within each direction requests complete in exactly enqueue order:
in every reachable state the resolved ghost ids of the write direction are
0, 1, ..., k-1 in that order (a prefix of the enqueue order, which assigns
ids 0, 1, 2, ...), and likewise for the read direction; this holds for
every trace and every failure oracle, so in particular regardless of how
enqueues interleave with drain passes and regardless of EOF failures. -/
theorem C3_fifo_completion (rd ch fl : List Nat) (t : List Step) :
    (run (init rd ch fl) t).doneW.map Prod.fst =
      List.range (run (init rd ch fl) t).doneW.length ∧
    (run (init rd ch fl) t).doneR.map (fun x => x.1) =
      List.range (run (init rd ch fl) t).doneR.length := by
  obtain ⟨⟨w1, w2, w3, w4, w5, w6⟩, ⟨r1, r2, r3⟩⟩ := inv_run t _ (inv_init rd ch fl)
  constructor
  · have hw := congrArg (List.map Prod.fst) w2
    rw [List.map_append, List.map_map, w1] at hw
    have hpre := prefix_of_range hw
    rw [List.length_map] at hpre
    exact hpre
  · rw [r1] at r2
    have hpre := prefix_of_range r2
    rw [List.length_map] at hpre
    exact hpre

/-- C8 (amended): every enqueued request is resolved at most once and in
FIFO order by the drain worker: in every reachable state the resolved ids
followed by the still-queued ids are exactly the enqueued ids 0, ..., n-1
in order (so no id is ever resolved twice, and an enqueued request is
either resolved exactly once or still queued - the latter persisting when
an underlying write error aborts a drain pass). -/
theorem C8_at_most_once_partition (rd ch fl : List Nat) (t : List Step) :
    (run (init rd ch fl) t).doneW.map Prod.fst ++
      (run (init rd ch fl) t).pendingWrites.map (fun r => r.id) =
      List.range (run (init rd ch fl) t).nextWId ∧
    (run (init rd ch fl) t).doneR.map (fun x => x.1) ++
      (run (init rd ch fl) t).pendingReads.map (fun r => r.id) =
      List.range (run (init rd ch fl) t).nextRId := by
  obtain ⟨⟨w1, w2, w3, w4, w5, w6⟩, ⟨r1, r2, r3⟩⟩ := inv_run t _ (inv_init rd ch fl)
  constructor
  · have hw := congrArg (List.map Prod.fst) w2
    rw [List.map_append, List.map_map, w1] at hw
    exact hw
  · rw [r2, r1]

/-- C8 (counterexample to the claim as stated): an execution in which a
request is enqueued, its blocking write raises, and the completion handle
is never fulfilled nor rejected: after the drain pass the scheduler is
quiescent (no tasks), the request is still queued, and no resolution was
recorded - so it is not the case that exactly one of fulfill or reject is
called for every enqueued request in every execution. -/
theorem C8_exactly_once_counterexample :
    (run (init [] [] [0]) [Step.swrite [5], Step.sdispatch]).doneW = [] ∧
    (run (init [] [] [0]) [Step.swrite [5], Step.sdispatch]).enqW = [(0, [5])] ∧
    (run (init [] [] [0]) [Step.swrite [5], Step.sdispatch]).tasks = [] ∧
    (run (init [] [] [0]) [Step.swrite [5], Step.sdispatch]).pendingWrites.map
      (fun r => r.id) = [0] := by
  decide

/-- C9: if the blocking write raises during a write-drain pass, the
exception propagates out of the worker but the FlagGuard still clears the
activity flag, and the requests remaining in the queue are left with their
completion handles neither fulfilled nor rejected: in every reachable state
(any failure oracle) both activity flags are clear and no still-queued
write request has a recorded resolution; concretely, with the first
blocking call failing, a drain pass over two queued writes resolves
neither, records no stream op, and still clears the flag. -/
theorem C9_error_flag_cleared_requests_abandoned (rd ch fl : List Nat) (t : List Step) :
    ((run (init rd ch fl) t).writesProcessing = false ∧
     (run (init rd ch fl) t).readsProcessing = false ∧
     List.inter ((run (init rd ch fl) t).doneW.map Prod.fst)
       ((run (init rd ch fl) t).pendingWrites.map (fun r => r.id)) = []) ∧
    ((run (init [] [] [0]) [Step.swrite [9], Step.swrite [8],
        Step.sdispatch]).writesProcessing = false ∧
     (run (init [] [] [0]) [Step.swrite [9], Step.swrite [8],
        Step.sdispatch]).doneW = [] ∧
     (run (init [] [] [0]) [Step.swrite [9], Step.swrite [8],
        Step.sdispatch]).ops = [] ∧
     (run (init [] [] [0]) [Step.swrite [9], Step.swrite [8],
        Step.sdispatch]).pendingWrites.map (fun r => r.id) = [0, 1]) := by
  constructor
  · obtain ⟨⟨w1, w2, w3, w4, w5, w6⟩, ⟨r1, r2, r3⟩⟩ := inv_run t _ (inv_init rd ch fl)
    refine ⟨w6, r3, ?_⟩
    have hw := congrArg (List.map Prod.fst) w2
    rw [List.map_append, List.map_map, w1] at hw
    have hw2 : (run (init rd ch fl) t).doneW.map Prod.fst ++
        (run (init rd ch fl) t).pendingWrites.map (fun r => r.id) =
        List.range (run (init rd ch fl) t).nextWId := hw
    have hnodup : ((run (init rd ch fl) t).doneW.map Prod.fst ++
        (run (init rd ch fl) t).pendingWrites.map (fun r => r.id)).Nodup := by
      rw [hw2]
      exact List.nodup_range _
    exact List.inter_eq_nil_iff_disjoint.2 (List.disjoint_of_nodup_append hnodup)
  · decide

/-- C1: with no underlying stream errors, for every sequence of write calls
issued before any shutdownWrite (the only ones accepted), the wrapped
blocking stream receives exactly those buffers, each in full in one
blocking call, in issue order: at every point the op trace followed by the
still-queued buffers equals the accepted buffers in order, and once the
pending drain tasks run the op trace equals the accepted buffers exactly -
no bytes dropped, duplicated, or interleaved between requests. -/
theorem C1_write_order_preserved (rd ch : List Nat) (t : List Step) :
    writesOf (run (init rd ch []) t).ops ++
      (run (init rd ch []) t).pendingWrites.map (fun r => r.buffer) =
      (run (init rd ch []) t).enqW.map Prod.snd ∧
    writesOf (dispatchN (run (init rd ch []) t)
        (run (init rd ch []) t).tasks.length).ops =
      (run (init rd ch []) t).enqW.map Prod.snd := by
  have hi : Inv (run (init rd ch []) t) := inv_run t _ (inv_init rd ch [])
  have hfail : (run (init rd ch []) t).fails = [] := by
    rw [run_fails]
    rfl
  have hti : TInv (run (init rd ch []) t) :=
    tinv_run t _ rfl (inv_init rd ch []) (tinv_init rd ch [])
  constructor
  · obtain ⟨⟨w1, w2, w3, w4, w5, w6⟩, hr⟩ := hi
    have hw := congrArg (List.map Prod.snd) w2
    rw [List.map_append, List.map_map] at hw
    rw [w3]
    exact hw
  · have hi2 : Inv (dispatchN (run (init rd ch []) t)
        (run (init rd ch []) t).tasks.length) :=
      inv_run _ _ hi
    have hti2 : TInv (dispatchN (run (init rd ch []) t)
        (run (init rd ch []) t).tasks.length) :=
      tinv_run _ _ hfail hi hti
    have htasks2 : (dispatchN (run (init rd ch []) t)
        (run (init rd ch []) t).tasks.length).tasks = [] :=
      dispatchN_tasks _ _ rfl
    have hpend2 : (dispatchN (run (init rd ch []) t)
        (run (init rd ch []) t).tasks.length).pendingWrites = [] := by
      rcases hti2.1 with h | h
      · exact h
      · rw [htasks2] at h
        cases h
    obtain ⟨⟨v1, v2, v3, v4, v5, v6⟩, _⟩ := hi2
    rw [hpend2] at v2
    simp only [List.map_nil, List.append_nil] at v2
    rw [v3, v2, dispatchN_enqW]

/-- C7 (counterexample to the claim as stated): the flush of the underlying
stream is not invoked exactly once over the adapter's lifetime: a write
followed by a single shutdownWrite schedules two drain passes (the activity
flag is only set when a pass starts running, not when it is scheduled), and
each pass flushes, so the stream is flushed twice. -/
theorem C7_flush_counterexample :
    countFlush (run (init [] [] [])
      [Step.swrite [5], Step.sshutdown, Step.sdispatch, Step.sdispatch]).ops = 2 := by
  decide

/-- C7 (amended): every flush happens only after all queued writes have
been written - whenever the op trace contains a flush, the write queue is
empty (and, since flushWrites blocks further enqueues, stays empty) and no
write op ever follows a flush op in the trace - and shutdownWrite does,
unconditionally, eventually cause at least one flush: with no underlying
errors, appending shutdownWrite to any trace whatsoever and running the
then-pending drain tasks produces a flush.  The flush may however occur
more than once (once per drain pass that runs with flushWrites set). -/
theorem C7_flush_after_drain (rd ch fl : List Nat) (t : List Step) :
    (hasFlush (run (init rd ch fl) t).ops = true →
      (run (init rd ch fl) t).pendingWrites = [] ∧
      wfOps (run (init rd ch fl) t).ops = true) ∧
    hasFlush (dispatchN (run (init rd ch []) (t ++ [Step.sshutdown]))
      (run (init rd ch []) (t ++ [Step.sshutdown])).tasks.length).ops = true := by
  obtain ⟨⟨w1, w2, w3, w4, w5, w6⟩, hr⟩ := inv_run t _ (inv_init rd ch fl)
  constructor
  · intro h
    exact ⟨(w5 h).1, w4⟩
  · have hi0 : Inv (run (init rd ch []) t) := inv_run t _ (inv_init rd ch [])
    have hshut : run (init rd ch []) (t ++ [Step.sshutdown]) =
        shutdownWrite (run (init rd ch []) t) := by
      rw [run_append]
      rfl
    apply flush_eventually _ _ rfl
    · rw [hshut]
      unfold shutdownWrite
      rw [startWrites_fails]
      show (run (init rd ch []) t).fails = []
      rw [run_fails]
      rfl
    · rw [hshut]
      exact shutdown_flushWrites _
    · rw [hshut]
      exact shutdown_task_mem _ hi0.1.2.2.2.2.2

theorem C7_flush_after_drain_witness :
    hasFlush (run (init [] [] []) [Step.sshutdown, Step.sdispatch]).ops = true ∧
    ((run (init [] [] []) [Step.sshutdown, Step.sdispatch]).pendingWrites = [] ∧
     wfOps (run (init [] [] []) [Step.sshutdown, Step.sdispatch]).ops = true) ∧
    hasFlush (dispatchN (run (init [] [] [])
        ([Step.sshutdown, Step.sdispatch] ++ [Step.sshutdown]))
      (run (init [] [] [])
        ([Step.sshutdown, Step.sdispatch] ++ [Step.sshutdown])).tasks.length).ops =
      true :=
  ⟨by decide,
   (C7_flush_after_drain [] [] [] [Step.sshutdown, Step.sdispatch]).1 (by decide),
   (C7_flush_after_drain [] [] [] [Step.sshutdown, Step.sdispatch]).2⟩
